import Mathlib

/-!
Shallow embedding of `src/family_C++.cpp`: a `Person` record (role tag,
name, age), four role constructors (`Mother`, `Father`, `Daughter`, `Son`),
and the `displayFamily` routine that prints one description line per member,
sums all ages in a signed 32-bit `int` accumulator, and divides by the
member count as a `double`.

Machine arithmetic: the C++ accumulator `int totalAge` is modelled as a
mathematical `Int` wrapped to the signed 32-bit range after every addition
(`int32wrap`, two's-complement semantics).  The final `double` division is
modelled exactly over `ℚ`, with the IEEE special results (NaN, ±infinity)
made explicit in `DoubleRes` for the division-by-zero case the source
leaves unguarded.
-/

/-- Mirrors `class Person { string type; string name; int age; ... }`.
The C++ `int` field is an `Int`; every value the program constructs lies in
the signed 32-bit range. -/
structure Person where
  type : String
  name : String
  age : Int
deriving DecidableEq

/-- Mirrors `Person::display`: builds the line
`"Type: <type>, Name: <name>, Age: <age>"` (the source streams the pieces to
`cout`; here we return the assembled string). -/
def Person.display (p : Person) : String :=
  "Type: " ++ p.type ++ ", Name: " ++ p.name ++ ", Age: " ++ toString p.age

/-- Mirrors `Person::getAge`. -/
def Person.getAge (p : Person) : Int :=
  p.age

/-- Mirrors `Mother::Mother(string n, int a) : Person("Mother", n, a)`. -/
def Mother (n : String) (a : Int) : Person :=
  ⟨"Mother", n, a⟩

/-- Mirrors `Father::Father(string n, int a) : Person("Father", n, a)`. -/
def Father (n : String) (a : Int) : Person :=
  ⟨"Father", n, a⟩

/-- Mirrors `Daughter::Daughter(string n, int a) : Person("Daughter", n, a)`. -/
def Daughter (n : String) (a : Int) : Person :=
  ⟨"Daughter", n, a⟩

/-- Mirrors `Son::Son(string n, int a) : Person("Son", n, a)`. -/
def Son (n : String) (a : Int) : Person :=
  ⟨"Son", n, a⟩

/-- Two's-complement wrap of an integer to the signed 32-bit range
`[-2147483648, 2147483648)`: the value a C++ `int` holds after an
arithmetic step. -/
def int32wrap (x : Int) : Int :=
  (x + 2147483648) % 4294967296 - 2147483648

/-- Mirrors the accumulation loop of `displayFamily`:
`int totalAge = 0; for (member : family) totalAge += member->getAge();`
— a left-to-right fold whose accumulator wraps to the `int` range at each
addition. -/
def totalAge (family : List Person) : Int :=
  family.foldl (fun acc m => int32wrap (acc + m.getAge)) 0

/-- The unbounded mathematical sum of the members' ages, for comparison
with the machine accumulator `totalAge`. -/
def sumAges (family : List Person) : Int :=
  (family.map Person.getAge).sum

/-- The value of a C++ `double` expression as far as this program needs it:
either an exact rational or one of the IEEE special results produced by
dividing by zero. -/
inductive DoubleRes where
  | val (q : ℚ)
  | nan
  | inf
  | neginf
deriving DecidableEq

/-- Mirrors `static_cast<double>(x) / n` for an `int` numerator and a
`size_t` denominator, including the IEEE outcomes when `n = 0`:
`0.0/0.0` is NaN and `±x/0.0` is `±infinity`.  For `n ≠ 0` the quotient is
taken exactly in `ℚ`. -/
def divDouble (x : Int) (n : Nat) : DoubleRes :=
  if n = 0 then
    if x = 0 then DoubleRes.nan
    else if 0 < x then DoubleRes.inf
    else DoubleRes.neginf
  else DoubleRes.val ((x : ℚ) / (n : ℚ))

/-- Mirrors `double averageAge = static_cast<double>(totalAge) / family.size();`
from `displayFamily`. -/
def averageAge (family : List Person) : DoubleRes :=
  divDouble (totalAge family) family.length

/-- Mirrors the rendering part of `displayFamily`: the header line
`"Family Members:"` followed by one `Person.display` line per member, in
the vector's order. -/
def displayFamilyLines (family : List Person) : List String :=
  "Family Members:" :: family.map Person.display

/-- The whole `displayFamily(const vector<Person*>& family)` call as a state
transformer: it produces the rendered lines and the average, and — because
the roster is taken by const reference and only const member functions are
called — hands back the roster itself as the post-state. -/
def displayFamilyRun (family : List Person) :
    (List String × DoubleRes) × List Person :=
  ((displayFamilyLines family, averageAge family), family)

/-- The operations the program's interface offers on a constructed roster:
the two roster-level queries of `displayFamily` and the two per-member
const queries. -/
inductive Op where
  | render
  | avg
  | displayMember (i : Nat)
  | getAgeMember (i : Nat)

/-- Result of one interface operation. -/
inductive OpResult where
  | lines (ls : List String)
  | average (r : DoubleRes)
  | text (t : Option String)
  | number (v : Option Int)

/-- Applying one interface operation to the roster: each returns its result
together with the roster afterwards (all four are const in the source). -/
def applyOp : Op → List Person → OpResult × List Person
  | Op.render, s => (OpResult.lines (displayFamilyLines s), s)
  | Op.avg, s => (OpResult.average (averageAge s), s)
  | Op.displayMember i, s => (OpResult.text ((s.get? i).map Person.display), s)
  | Op.getAgeMember i, s => (OpResult.number ((s.get? i).map Person.getAge), s)

/-- The roster left after running a sequence of interface operations. -/
def runOps (ops : List Op) (family : List Person) : List Person :=
  ops.foldl (fun s o => (applyOp o s).2) family

/-- Mirrors the roster built by `main`: Mother Alice 45, Father Bob 48,
Daughter Charlotte 15, Son David 12, pushed in that order. -/
def demoFamily : List Person :=
  [Mother "Alice" 45, Father "Bob" 48, Daughter "Charlotte" 15, Son "David" 12]

/-- A two-member roster whose exact age total `2^31` overflows the signed
32-bit accumulator. -/
def cexFamily : List Person :=
  [Mother "A" 2147483647, Father "B" 1]

/-! ### Arithmetic lemmas about the 32-bit accumulator -/

/-- Wrapping the left operand first does not change a wrapped sum. -/
theorem int32wrap_add_left (a b : Int) :
    int32wrap (int32wrap a + b) = int32wrap (a + b) := by
  unfold int32wrap
  omega

/-- A value already in the signed 32-bit range is fixed by `int32wrap`. -/
theorem int32wrap_eq_self (x : Int) (h1 : -2147483648 ≤ x)
    (h2 : x < 2147483648) : int32wrap x = x := by
  unfold int32wrap
  omega

/-- The wrapping fold from any wrapped starting accumulator equals the wrap
of the exact sum. -/
theorem totalAge_foldl_wrap (family : List Person) (acc : Int) :
    family.foldl (fun a m => int32wrap (a + m.getAge)) (int32wrap acc)
      = int32wrap (acc + sumAges family) := by
  induction family generalizing acc with
  | nil => simp [sumAges]
  | cons m t ih =>
    simp only [List.foldl_cons, sumAges, List.map_cons, List.sum_cons]
    rw [int32wrap_add_left, ih (acc + m.getAge)]
    simp only [sumAges]
    ring_nf

/-- The machine accumulator is the two's-complement wrap of the exact sum. -/
theorem totalAge_eq_wrap (family : List Person) :
    totalAge family = int32wrap (sumAges family) := by
  have h0 : int32wrap 0 = 0 := by decide
  have h := totalAge_foldl_wrap family 0
  rw [h0, zero_add] at h
  exact h

/-! ### Claim theorems -/

/-- C2: rendering produces the header line `"Family Members:"` followed by
exactly N description lines, one per member in insertion order, each
formatted `"Type: <role>, Name: <name>, Age: <age>"` from that member's
fields. -/
theorem renderAll_format (family : List Person) :
    (displayFamilyLines family).length = family.length + 1 ∧
    (displayFamilyLines family).get? 0 = some "Family Members:" ∧
    ∀ i, ∀ h : i < family.length,
      (displayFamilyLines family).get? (i + 1) =
        some ("Type: " ++ (family.get ⟨i, h⟩).type ++ ", Name: " ++
          (family.get ⟨i, h⟩).name ++ ", Age: " ++
          toString (family.get ⟨i, h⟩).age) := by
  refine ⟨by simp [displayFamilyLines], rfl, ?_⟩
  intro i h
  have hm : i < (family.map Person.display).length := by simpa using h
  simp only [displayFamilyLines, List.get?_cons_succ, List.get?_map]
  rw [List.get?_eq_get h]
  rfl

/-- C2 witness: the theorem applied to the driver's roster at index 0. -/
theorem renderAll_format_witness :
    0 < demoFamily.length ∧
    (displayFamilyLines demoFamily).get? 1 =
      some ("Type: " ++ (demoFamily.get ⟨0, by decide⟩).type ++ ", Name: " ++
        (demoFamily.get ⟨0, by decide⟩).name ++ ", Age: " ++
        toString (demoFamily.get ⟨0, by decide⟩).age) :=
  ⟨by decide, (renderAll_format demoFamily).2.2 0 (by decide)⟩

/-- C3: on the empty roster the source's unguarded
`static_cast<double>(totalAge) / family.size()` is `0.0 / 0.0`, which
evaluates to NaN — a silent numeric artifact, not the documented named
failure the specification requires. -/
theorem averageAge_empty_nan :
    averageAge ([] : List Person) = DoubleRes.nan := by
  rfl

/-- C4: the driver's concrete roster renders exactly the header plus the four
expected lines in order, and its average age is exactly 30. -/
theorem demoFamily_end_to_end :
    displayFamilyLines demoFamily =
      ["Family Members:",
       "Type: Mother, Name: Alice, Age: 45",
       "Type: Father, Name: Bob, Age: 48",
       "Type: Daughter, Name: Charlotte, Age: 15",
       "Type: Son, Name: David, Age: 12"] ∧
    averageAge demoFamily = DoubleRes.val 30 := by
  constructor
  · rfl
  · have ht : totalAge demoFamily = 120 := by decide
    have hl : demoFamily.length = 4 := rfl
    show divDouble (totalAge demoFamily) demoFamily.length = DoubleRes.val 30
    rw [ht, hl]
    norm_num [divDouble]

/-- C5: for every name and age, the description of each variant carries the
fixed role string of that variant — `"Mother"`, `"Father"`, `"Daughter"`,
`"Son"` — independent of the arguments. -/
theorem describe_role_fixed (n : String) (a : Int) :
    (Mother n a).type = "Mother" ∧
    (Mother n a).display = "Type: Mother, Name: " ++ n ++ ", Age: " ++ toString a ∧
    (Father n a).type = "Father" ∧
    (Father n a).display = "Type: Father, Name: " ++ n ++ ", Age: " ++ toString a ∧
    (Daughter n a).type = "Daughter" ∧
    (Daughter n a).display = "Type: Daughter, Name: " ++ n ++ ", Age: " ++ toString a ∧
    (Son n a).type = "Son" ∧
    (Son n a).display = "Type: Son, Name: " ++ n ++ ", Age: " ++ toString a :=
  ⟨rfl, rfl, rfl, rfl, rfl, rfl, rfl, rfl⟩

/-- C6: running `displayFamily` a second time on the roster left by the first
run yields the same rendered lines and the same average, and the roster is
still the original one — both queries are deterministic and read-only. -/
theorem displayFamily_idempotent (family : List Person) :
    (displayFamilyRun ((displayFamilyRun family).2)).1 =
      (displayFamilyRun family).1 ∧
    (displayFamilyRun ((displayFamilyRun family).2)).2 = family :=
  ⟨rfl, rfl⟩

/-- C7: construction of each variant is total — any name (including the
empty string) and any integer age (including zero and negatives) are
accepted unvalidated, and the constructed member reports exactly the
supplied name and age. -/
theorem construction_total (n : String) (a : Int) :
    (Mother n a).name = n ∧ (Mother n a).getAge = a ∧
    (Father n a).name = n ∧ (Father n a).getAge = a ∧
    (Daughter n a).name = n ∧ (Daughter n a).getAge = a ∧
    (Son n a).name = n ∧ (Son n a).getAge = a :=
  ⟨rfl, rfl, rfl, rfl, rfl, rfl, rfl, rfl⟩

/-- C8: no sequence of interface operations (rendering, averaging, or the
per-member const queries) changes the roster, so every member's role, name
and age are fixed after construction. -/
theorem members_immutable (ops : List Op) (family : List Person) :
    runOps ops family = family ∧
    (runOps ops family).map (fun p => (p.type, p.name, p.age)) =
      family.map (fun p => (p.type, p.name, p.age)) := by
  have h : runOps ops family = family := by
    induction ops generalizing family with
    | nil => rfl
    | cons o t ih =>
      have h2 : (applyOp o family).2 = family := by cases o <;> rfl
      simp only [runOps, List.foldl_cons] at ih ⊢
      rw [h2]
      exact ih family
  exact ⟨h, by rw [h]⟩

/-- C9: `displayFamily` is frame-preserving — after the call the roster has
the same length, the same members in the same order, and every member's
description and age are unchanged. -/
theorem displayFamily_frame (family : List Person) :
    (displayFamilyRun family).2 = family ∧
    (displayFamilyRun family).2.length = family.length ∧
    (displayFamilyRun family).2.map Person.display = family.map Person.display ∧
    (displayFamilyRun family).2.map Person.getAge = family.map Person.getAge :=
  ⟨rfl, rfl, rfl, rfl⟩

/-- C1 counterexample: on the roster `[Mother "A" 2147483647, Father "B" 1]`
the exact age total is `2^31`, the 32-bit accumulator wraps to `-2^31`, and
`averageAge` returns `-1073741824` instead of the exact mean `1073741824`. -/
theorem averageAge_overflow_cex :
    averageAge cexFamily = DoubleRes.val (-1073741824) ∧
    (sumAges cexFamily : ℚ) / (cexFamily.length : ℚ) = 1073741824 ∧
    averageAge cexFamily ≠
      DoubleRes.val ((sumAges cexFamily : ℚ) / (cexFamily.length : ℚ)) := by
  have ht : totalAge cexFamily = -2147483648 := by decide
  have hs : sumAges cexFamily = 2147483648 := by decide
  have hl : cexFamily.length = 2 := rfl
  have ha : averageAge cexFamily = DoubleRes.val (-1073741824) := by
    show divDouble (totalAge cexFamily) cexFamily.length = _
    rw [ht, hl]
    norm_num [divDouble]
  have hq : (sumAges cexFamily : ℚ) / (cexFamily.length : ℚ) = 1073741824 := by
    rw [hs, hl]
    norm_num
  refine ⟨ha, hq, ?_⟩
  rw [ha, hq]
  intro h
  exact absurd (DoubleRes.val.inj h) (by norm_num)

/-- C1 (amended): for every roster with at least one member whose exact age
total fits in the signed 32-bit accumulator, `averageAge` returns exactly
the left-to-right sum of the ages divided by the member count. -/
theorem averageAge_exact (family : List Person)
    (h1 : 1 ≤ family.length)
    (h2 : -2147483648 ≤ sumAges family)
    (h3 : sumAges family < 2147483648) :
    averageAge family =
      DoubleRes.val ((sumAges family : ℚ) / (family.length : ℚ)) := by
  show divDouble (totalAge family) family.length = _
  rw [totalAge_eq_wrap, int32wrap_eq_self _ h2 h3]
  unfold divDouble
  rw [if_neg (by omega)]

/-- C1 amended witness: the driver's roster satisfies the hypotheses and the
conclusion holds there. -/
theorem averageAge_exact_witness :
    1 ≤ demoFamily.length ∧
    -2147483648 ≤ sumAges demoFamily ∧
    sumAges demoFamily < 2147483648 ∧
    averageAge demoFamily =
      DoubleRes.val ((sumAges demoFamily : ℚ) / (demoFamily.length : ℚ)) :=
  ⟨by decide, by decide, by decide,
    averageAge_exact demoFamily (by decide) (by decide) (by decide)⟩

/-- C10: the machine accumulator equals the two's-complement wrap of the
exact age sum; the `double` result is that wrapped sum divided by the count;
and whenever the exact sum lies inside the signed 32-bit range (and the
roster is non-empty) the result is exactly the true mean. -/
theorem totalAge_int32_semantics (family : List Person) :
    totalAge family = int32wrap (sumAges family) ∧
    averageAge family = divDouble (int32wrap (sumAges family)) family.length ∧
    (-2147483648 ≤ sumAges family → sumAges family < 2147483648 →
      family ≠ [] →
      averageAge family =
        DoubleRes.val ((sumAges family : ℚ) / (family.length : ℚ))) := by
  refine ⟨totalAge_eq_wrap family, ?_, ?_⟩
  · show divDouble (totalAge family) family.length = _
    rw [totalAge_eq_wrap]
  · intro h2 h3 hne
    show divDouble (totalAge family) family.length = _
    rw [totalAge_eq_wrap, int32wrap_eq_self _ h2 h3]
    unfold divDouble
    rw [if_neg (fun h => hne (List.length_eq_zero.mp h))]

/-- C10 witness: the wrap identities and the in-range exactness hold on the
driver's roster. -/
theorem totalAge_int32_semantics_witness :
    -2147483648 ≤ sumAges demoFamily ∧
    sumAges demoFamily < 2147483648 ∧
    demoFamily ≠ [] ∧
    totalAge demoFamily = int32wrap (sumAges demoFamily) ∧
    averageAge demoFamily =
      DoubleRes.val ((sumAges demoFamily : ℚ) / (demoFamily.length : ℚ)) :=
  ⟨by decide, by decide, by decide,
    (totalAge_int32_semantics demoFamily).1,
    (totalAge_int32_semantics demoFamily).2.2 (by decide) (by decide) (by decide)⟩
